import Mathlib

set_option maxHeartbeats 1000000

/-! # Shallow embedding of `pymc_extras/statespace/models/utilities.py`

Python strings are modelled as `List Char`.  Python `str.replace(pat, "")` for the
two-character patterns used by `cleanup_states` is modelled by `removePat`, and the
decimal formatting that an f-string applies to a nonnegative integer is `natChars`.
NumPy 2-d arrays are modelled as a shape together with a total entry function, and
fancy-index assignment `T[rows, cols] = v` is `setIdx` applied to the zipped list
of index pairs.  PyTensor variables are modelled by their name and static shape. -/

/-- One decimal digit character, as produced by Python integer formatting. -/
def digitChar (n : Nat) : Char :=
  if n = 0 then '0' else if n = 1 then '1' else if n = 2 then '2'
  else if n = 3 then '3' else if n = 4 then '4' else if n = 5 then '5'
  else if n = 6 then '6' else if n = 7 then '7' else if n = 8 then '8' else '9'

/-- Fueled accumulator loop for decimal rendering (most significant digit first). -/
def natCharsCore : Nat → Nat → List Char → List Char
  | 0, _, acc => acc
  | fuel + 1, n, acc =>
    if n < 10 then digitChar n :: acc
    else natCharsCore fuel (n / 10) (digitChar (n % 10) :: acc)

/-- Decimal rendering of a natural number, as Python f-string formatting produces. -/
def natChars (n : Nat) : List Char :=
  natCharsCore (n + 1) n []

/-- Numeric value of a decimal digit string (a left inverse of `natChars`). -/
def charsToNat (l : List Char) : Nat :=
  l.foldl (fun a c => 10 * a + (c.toNat - 48)) 0

/-- Remove the non-overlapping occurrences of the two-character pattern `[a, b]`,
scanning left to right: Python `s.replace(str_of [a, b], "")`. -/
def removePat (a b : Char) : List Char → List Char
  | x :: y :: s =>
    if x = a ∧ y = b then removePat a b s
    else x :: removePat a b (y :: s)
  | s => s

/-- Python substring containment `pat in s`. -/
def containsSub (pat : List Char) : List Char → Bool
  | [] => pat.isEmpty
  | c :: s => pat.isPrefixOf (c :: s) || containsSub pat s

/-- `cleanup_states` from the source: strip the tokens `^1`, `^0`, `L0`, `D0`
from every state name, in that order. -/
def cleanup_states (states : List (List Char)) : List (List Char) :=
  states.map (fun state =>
    removePat 'D' '0' (removePat 'L' '0' (removePat '^' '0' (removePat '^' '1' state))))

/-- The body of the seasonal-difference loop of `make_harvey_state_names`:
one iteration extends the state list with the `S - 1` lag names built from the
current differencing descriptor, increments the seasonal-difference count,
rebuilds the combined descriptor, and (except on the last round) appends one
state named by the updated descriptor. -/
def harveyStep (D S a0 a1 : Nat) (acc : List (List Char) × Nat × List Char)
    (i : Nat) : List (List Char) × Nat × List Char :=
  let sts := acc.1 ++ ((List.range (S - 1)).map (fun j =>
    ("L").toList ++ natChars (j + 1) ++ acc.2.2 ++ (".data").toList))
  let sc := acc.2.1 + 1
  let curr :=
    ("D").toList ++ natChars a0 ++ ("^").toList ++ natChars a1 ++
    ("D").toList ++ natChars S ++ ("^").toList ++ natChars sc
  let sts := if i ≠ D - 1 then sts ++ [curr ++ (".data").toList] else sts
  (sts, sc, curr)

/-- `make_harvey_state_names` from the source. -/
def make_harvey_state_names (p d q P D Q S : Nat) : List (List Char) :=
  let k_lags := max (p + P * S) (q + Q * S + 1)
  let has_diff := 0 < d + D
  let states : List (List Char) := [("data").toList]
  let d_size := d + (if 0 < D then 1 else 0)
  let states := states ++
    ((List.range d_size).dropLast.map (fun i =>
      ("D1^").toList ++ natChars (i + 1) ++ (".data").toList))
  let arma_diff : Nat × Nat := (if 1 < d_size then 1 else 0, d_size - 1)
  let season_diff : Nat × Nat := (S, 0)
  let curr_state :=
    ("D").toList ++ natChars arma_diff.1 ++ ("^").toList ++ natChars arma_diff.2
  let result := (List.range D).foldl (harveyStep D season_diff.1 arma_diff.1 arma_diff.2)
    (states, season_diff.2, curr_state)
  let states := result.1
  let states := if has_diff then states ++ [("data_star").toList] else states
  let sfx :=
    if containsSub (("star").toList) (states.getLastD []) then ("_star").toList
    else ([] : List Char)
  let states := states ++ ((List.range (k_lags - 1)).map (fun i =>
    ("state").toList ++ sfx ++ ("_").toList ++ natChars (i + 1)))
  cleanup_states states

/-- The ARIMA part of the differencing descriptor carried through the seasonal
loop of `make_harvey_state_names`. -/
def armaStr (a0 a1 : Nat) : List Char :=
  ("D").toList ++ natChars a0 ++ ("^").toList ++ natChars a1

/-- The combined differencing descriptor after `k` seasonal rounds. -/
def currStr (a0 a1 S k : Nat) : List Char :=
  if k = 0 then armaStr a0 a1
  else armaStr a0 a1 ++ ("D").toList ++ natChars S ++ ("^").toList ++ natChars k

/-- The state names contributed by round `i` of the seasonal loop of
`make_harvey_state_names` (before cleanup). -/
def roundNames (D S a0 a1 i : Nat) : List (List Char) :=
  ((List.range (S - 1)).map (fun j =>
    ("L").toList ++ natChars (j + 1) ++ currStr a0 a1 S i ++ (".data").toList)) ++
  (if i ≠ D - 1 then [currStr a0 a1 S (i + 1) ++ (".data").toList] else [])

/-- Closed form of the list of state names generated by `make_harvey_state_names`
before `cleanup_states` is applied: `"data"`, the intermediate ARIMA-difference
names, the seasonal-round names, `"data_star"` when any differencing is present,
and the dynamics-state names. -/
def rawNames (p d q P D Q S : Nat) : List (List Char) :=
  let k_lags := max (p + P * S) (q + Q * S + 1)
  let d_size := d + (if 0 < D then 1 else 0)
  let a0 := if 1 < d_size then 1 else 0
  let a1 := d_size - 1
  let sfx := if 0 < d + D then ("_star").toList else ([] : List Char)
  [("data").toList] ++
  ((List.range (d_size - 1)).map (fun i =>
    ("D1^").toList ++ natChars (i + 1) ++ (".data").toList)) ++
  ((List.range D).flatMap (roundNames D S a0 a1)) ++
  (if 0 < d + D then [("data_star").toList] else []) ++
  ((List.range (k_lags - 1)).map (fun i =>
    ("state").toList ++ sfx ++ ("_").toList ++ natChars (i + 1)))

/-- A NumPy 2-d array: its shape together with a total entry function. -/
structure NpMatrix where
  rows : Nat
  cols : Nat
  entry : Nat → Nat → Int

/-- Fancy-index assignment `T[rowIdx, colIdx] = v` over the zipped index pairs. -/
def setIdx (T : Nat → Nat → Int) (idx : List (Nat × Nat)) (v : Int) : Nat → Nat → Int :=
  fun i j => if (i, j) ∈ idx then v else T i j

/-- `np.triu_indices(d)`: the pairs `(i, j)` with `i ≤ j < d`. -/
def triu_indices (d : Nat) : List (Nat × Nat) :=
  (List.range d).flatMap (fun i =>
    ((List.range d).filter (fun j => i ≤ j)).map (fun j => (i, j)))

/-- The body of the seasonal-difference loop of `make_SARIMA_transition_matrix`:
round `i` appends the column positions `base_col_idx[i:]` and, for each of them,
the row position `d + S * i`. -/
def sarimaRcStep (d S : Nat) (base_col_idx : List Nat)
    (rc : List Nat × List Nat) (i : Nat) : List Nat × List Nat :=
  (rc.1 ++ List.replicate (base_col_idx.drop i).length (d + S * i),
   rc.2 ++ base_col_idx.drop i)

/-- The full set of recovery column indices of `make_SARIMA_transition_matrix`:
`base_col_idx = d + S + arange(D)*S - 1`, with `base_col_idx[-1] + 1` appended
when the array is nonempty. -/
def sarima_base_col_idx (d D S : Nat) : List Nat :=
  let base := (List.range D).map (fun i => d + S + i * S - 1)
  match base.getLast? with
  | some x => base ++ [x + 1]
  | none => base

/-- `make_SARIMA_transition_matrix` from the source. -/
def make_SARIMA_transition_matrix (p d q P D Q S : Nat) : NpMatrix :=
  let n_diffs := S * D + d
  let k_lags := max (p + P * S) (q + Q * S + 1)
  let k_states := k_lags + n_diffs
  let T0 : Nat → Nat → Int := fun _ _ => 0
  let T1 := setIdx T0 (triu_indices d) 1
  let base_col_idx := sarima_base_col_idx d D S
  let col_idx := (List.range d).flatMap (fun _ => base_col_idx)
  let row_idx := (List.range d).flatMap (fun i => List.replicate (D + 1) i)
  let rc := (List.range D).foldl (sarimaRcStep d S base_col_idx) (row_idx, col_idx)
  let rc := if D = 0 ∧ 0 < d then (List.range d, List.replicate d d) else rc
  let T2 := setIdx T1 (rc.1.zip rc.2) 1
  let T3 :=
    if 0 < S then
      let roll := (List.range (S * D)).map (fun k => (k + d + 1, k + d))
      let Tr := setIdx T2 roll 1
      let zeroIdx := ((List.range (S * D)).filter (fun k => k % S == S - 1)).map
        (fun k => (k + d + 1, k + d))
      setIdx Tr zeroIdx 0
    else T2
  let star := (List.range (k_lags - 1)).map (fun k => (k + n_diffs, k + n_diffs + 1))
  { rows := k_states, cols := k_states, entry := setIdx T3 star 1 }

/-- A pytensor `TensorVariable`, modelled at the level the source uses:
a possibly-absent name and a static shape whose per-axis extents may be unknown. -/
structure TensorVar where
  name : Option String
  shape : List (Option Nat)
deriving DecidableEq

/-- `x.ndim` of a pytensor variable. -/
def TensorVar.ndim (x : TensorVar) : Nat := x.shape.length

/-- Python membership test `x.name in names` where the name may be `None`
(`None in names` is false for a list of strings). -/
def nameMem (n : Option String) (names : List String) : Bool :=
  match n with
  | some s => names.contains s
  | none => false

/-- Modelled from the spec: the registries `MATRIX_NAMES`, `LONG_MATRIX_NAMES` and
`VECTOR_VALUED` live in `pymc_extras.statespace.utils.constants`, which is not among
the sources; per the spec they are fixed registries of recognized state-space matrix
names, so they are taken here as parameters.  The body itself embeds
`conform_time_varying_and_time_invariant_matrices` from the source, with
`pt.repeat` + `pt.specify_shape` modelled by their effect on name and static shape. -/
def conform_time_varying_and_time_invariant_matrices
    (MATRIX_NAMES LONG_MATRIX_NAMES VECTOR_VALUED : List String)
    (A B : TensorVar) : Except String (TensorVar × TensorVar) :=
  let registry := MATRIX_NAMES ++ LONG_MATRIX_NAMES
  let proceed : Option String → Except String (TensorVar × TensorVar) := fun name =>
    let time_varying_ndim := 3 - (if nameMem name VECTOR_VALUED then 1 else 0)
    if ¬ (A.ndim = time_varying_ndim ∧ B.ndim = time_varying_ndim) then
      Except.ok (A, B)
    else
      let T_A := A.shape.headD none
      let A_dims := A.shape.tail
      let T_B := B.shape.headD none
      let B_dims := B.shape.tail
      if T_A = T_B then Except.ok (A, B)
      else if T_A = some 1 then
        Except.ok ({ name := A.name, shape := T_B :: A_dims }, B)
      else if T_B = some 1 then
        Except.ok (A, { name := B.name, shape := T_A :: B_dims })
      else Except.ok (A, B)
  if A.name = B.name then proceed A.name
  else if nameMem A.name registry = false ∧ nameMem B.name registry = false then
    Except.error "At least one matrix passed to conform_time_varying_and_time_invariant_matrices should be a statespace matrix"
  else
    proceed (if nameMem A.name registry then A.name else B.name)

/-- The per-name cleanup performed by `cleanup_states`. -/
def cleanupName (state : List Char) : List Char :=
  removePat 'D' '0' (removePat 'L' '0' (removePat '^' '0' (removePat '^' '1' state)))

/-- The characters of `".data"`. -/
def dotData : List Char := ['.', 'd', 'a', 't', 'a']

/-- What remains of the segment `^k` of a state name after `cleanup_states`
strips `^1`: the digits of `k` with a leading 1 removed, or the whole segment. -/
def caretNat (k : Nat) : List Char :=
  if (natChars k).headD ' ' = '1' then (natChars k).tail else '^' :: natChars k

/-- The differencing descriptor from `currStr` after cleanup, for seasonal round
`r`, ARIMA difference order `d` and season length `S`. -/
def cleanCurr (d S r : Nat) : List Char :=
  if d = 0 then
    (if r = 0 then [] else 'D' :: (natChars S ++ caretNat r))
  else
    (if r = 0 then 'D' :: '1' :: caretNat d
     else 'D' :: '1' :: (caretNat d ++ 'D' :: (natChars S ++ caretNat r)))

/-- The cleaned-up state names contributed by round `i` of the seasonal loop. -/
def cleanRound (d D S i : Nat) : List (List Char) :=
  ((List.range (S - 1)).map (fun j =>
    'L' :: (natChars (j + 1) ++ (cleanCurr d S i ++ dotData)))) ++
  (if i ≠ D - 1 then [cleanCurr d S (i + 1) ++ dotData] else [])

def cleanNames (p d q P D Q S : Nat) : List (List Char) :=
  let k_lags := max (p + P * S) (q + Q * S + 1)
  let d_size := d + (if 0 < D then 1 else 0)
  let sfx := if 0 < d + D then ("_star").toList else ([] : List Char)
  [("data").toList] ++
  ((List.range (d_size - 1)).map (fun i => 'D' :: '1' :: (caretNat (i + 1) ++ dotData))) ++
  ((List.range D).flatMap (cleanRound d D S)) ++
  (if 0 < d + D then [("data_star").toList] else []) ++
  ((List.range (k_lags - 1)).map (fun i =>
    ("state").toList ++ sfx ++ ("_").toList ++ natChars (i + 1)))

/-- C3 counterexample: on input `(1, 1, 1, 0, 0, 0, 0)` the state names returned by
`make_harvey_state_names` are not `["data", "data_star", "state_1"]`: the dynamics
state is named with the `_star` suffix, since the preceding state is `data_star`. -/
theorem C3_counterexample :
    make_harvey_state_names 1 1 1 0 0 0 0 ≠
      [("data").toList, ("data_star").toList, ("state_1").toList] := by decide

/-- C3 amended: on input `(1, 1, 1, 0, 0, 0, 0)` `make_harvey_state_names` returns
exactly the three-element list `["data", "data_star", "state_star_1"]`. -/
theorem C3_theorem :
    make_harvey_state_names 1 1 1 0 0 0 0 =
      [("data").toList, ("data_star").toList, ("state_star_1").toList] := by decide

/-- C4 counterexample: `cleanup_states` applied to `["D1^1.data", "L0.data", "D0^0"]`
does not return `["D1.data", "data", ""]`: stripping the literal token `L0` from
`"L0.data"` leaves `".data"`, with the dot. -/
theorem C4_counterexample :
    cleanup_states [("D1^1.data").toList, ("L0.data").toList, ("D0^0").toList] ≠
      [("D1.data").toList, ("data").toList, ("").toList] := by decide

/-- C4 amended: `cleanup_states` applied to `["D1^1.data", "L0.data", "D0^0"]`
returns exactly `["D1.data", ".data", ""]`. -/
theorem C4_theorem :
    cleanup_states [("D1^1.data").toList, ("L0.data").toList, ("D0^0").toList] =
      [("D1.data").toList, (".data").toList, ("").toList] := by decide

/-- C5 counterexample: two tensors that both carry the name `None` (hence neither
name is in the recognized registry) do not make
`conform_time_varying_and_time_invariant_matrices` raise: because the two names are
equal, the registry check is skipped and the pair is returned unchanged. -/
theorem C5_counterexample :
    nameMem (TensorVar.mk none []).name (["T"] ++ ([] : List String)) = false ∧
    conform_time_varying_and_time_invariant_matrices ["T"] [] []
        (TensorVar.mk none []) (TensorVar.mk none []) =
      Except.ok (TensorVar.mk none [], TensorVar.mk none []) :=
  ⟨by decide, by rfl⟩

/-- C5 amended: for tensors `A`, `B` whose names differ, if neither name belongs to
the recognized matrix-name registry `MATRIX_NAMES + LONG_MATRIX_NAMES` then
`conform_time_varying_and_time_invariant_matrices` raises the validation error. -/
theorem C5_theorem (MN LN VV : List String) (A B : TensorVar)
    (hne : A.name ≠ B.name)
    (hA : nameMem A.name (MN ++ LN) = false)
    (hB : nameMem B.name (MN ++ LN) = false) :
    conform_time_varying_and_time_invariant_matrices MN LN VV A B =
      Except.error "At least one matrix passed to conform_time_varying_and_time_invariant_matrices should be a statespace matrix" := by
  simp only [conform_time_varying_and_time_invariant_matrices]
  rw [if_neg hne, if_pos ⟨hA, hB⟩]

/-- C5 witness: the amended claim applied at a concrete input. -/
theorem C5_witness :
    (TensorVar.mk (some "x") []).name ≠ (TensorVar.mk none []).name ∧
    conform_time_varying_and_time_invariant_matrices ["T"] [] []
        (TensorVar.mk (some "x") []) (TensorVar.mk none []) =
      Except.error "At least one matrix passed to conform_time_varying_and_time_invariant_matrices should be a statespace matrix" :=
  ⟨by decide, C5_theorem ["T"] [] [] (TensorVar.mk (some "x") []) (TensorVar.mk none [])
    (by decide) (by decide) (by decide)⟩

/-- C6: on input `(0, 0, 0, 0, 1, 0, 4)` the transition matrix is 5 by 5 and its
only 1-entries are at positions `(0,3)`, `(0,4)`, `(1,0)`, `(2,1)`, `(3,2)`: the
seasonal shift diagonal of length 4 has its 4th entry, at `(4,3)`, zeroed, and row 0
recovers the level from columns 3 and 4. -/
theorem C6_theorem :
    (make_SARIMA_transition_matrix 0 0 0 0 1 0 4).rows = 5 ∧
    (make_SARIMA_transition_matrix 0 0 0 0 1 0 4).cols = 5 ∧
    ∀ i, i < 5 → ∀ j, j < 5 →
      (make_SARIMA_transition_matrix 0 0 0 0 1 0 4).entry i j =
        (if (i, j) ∈ [(0, 3), (0, 4), (1, 0), (2, 1), (3, 2)] then 1 else 0) := by
  refine ⟨rfl, rfl, ?_⟩
  decide

/-- C9: whenever the two tensors carry equal names (both `None` included, or both a
name absent from the registry), `conform_time_varying_and_time_invariant_matrices`
skips the registry check and returns a pair rather than raising. -/
theorem C9_theorem (MN LN VV : List String) (A B : TensorVar) (h : A.name = B.name) :
    ∃ pr, conform_time_varying_and_time_invariant_matrices MN LN VV A B =
      Except.ok pr := by
  simp only [conform_time_varying_and_time_invariant_matrices]
  rw [if_pos h]
  split_ifs <;> exact ⟨_, rfl⟩

/-- C9 witness: the theorem applied at a concrete input with equal (absent) names. -/
theorem C9_witness :
    (TensorVar.mk none [some 2, some 2]).name = (TensorVar.mk none [some 3]).name ∧
    ∃ pr, conform_time_varying_and_time_invariant_matrices [] [] []
        (TensorVar.mk none [some 2, some 2]) (TensorVar.mk none [some 3]) =
      Except.ok pr :=
  ⟨rfl, C9_theorem [] [] [] (TensorVar.mk none [some 2, some 2])
    (TensorVar.mk none [some 3]) rfl⟩

theorem range_dropLast (n : Nat) : (List.range n).dropLast = List.range (n - 1) := by
  cases n with
  | zero => rfl
  | succ m => rw [List.range_succ]; simp

theorem armaStr_def (a0 a1 : Nat) :
    ("D").toList ++ natChars a0 ++ ("^").toList ++ natChars a1 = armaStr a0 a1 := rfl

theorem currStr_zero (a0 a1 S : Nat) : currStr a0 a1 S 0 = armaStr a0 a1 := by
  simp [currStr]

theorem contains_star_data_star :
    containsSub (("star").toList) (("data_star").toList) = true := by decide

theorem contains_star_data :
    containsSub ['s', 't', 'a', 'r'] ['d', 'a', 't', 'a'] = false := by decide

theorem harvey_fold_spec (D S a0 a1 : Nat) :
    ∀ t, t ≤ D → ∀ (sts : List (List Char)),
    (List.range t).foldl (harveyStep D S a0 a1) (sts, 0, armaStr a0 a1) =
      (sts ++ (List.range t).flatMap (roundNames D S a0 a1), t, currStr a0 a1 S t) := by
  intro t
  induction t with
  | zero => intro _ sts; simp [currStr_zero]
  | succ n ih =>
    intro hn sts
    rw [List.range_succ, List.foldl_concat, ih (by omega)]
    by_cases hlast : n ≠ D - 1 <;>
      simp [harveyStep, roundNames, currStr, armaStr, hlast, List.range_succ,
        List.flatMap_append, List.append_assoc]

theorem make_harvey_eq_raw (p d q P D Q S : Nat) :
    make_harvey_state_names p d q P D Q S = cleanup_states (rawNames p d q P D Q S) := by
  unfold make_harvey_state_names rawNames
  simp only [range_dropLast, armaStr_def]
  rw [harvey_fold_spec D S _ _ D le_rfl]
  by_cases h : 0 < d + D
  · simp only [if_pos h, List.getLastD_concat, contains_star_data_star, if_pos rfl]
    simp [List.append_assoc]
  · have hd : d = 0 := by omega
    have hD : D = 0 := by omega
    subst hd hD
    simp [contains_star_data]

theorem roundNames_len (D S a0 a1 i : Nat) :
    (roundNames D S a0 a1 i).length = (S - 1) + if i ≠ D - 1 then 1 else 0 := by
  by_cases h : i ≠ D - 1 <;> simp [roundNames, h]

theorem flatMap_roundNames_len (D S a0 a1 : Nat) :
    ((List.range D).flatMap (roundNames D S a0 a1)).length = D * (S - 1) + (D - 1) := by
  cases D with
  | zero => simp
  | succ n =>
    rw [List.range_succ, List.flatMap_append, List.length_append]
    have h1 : ((List.range n).flatMap (roundNames (n + 1) S a0 a1)).length
        = n * (S - 1 + 1) := by
      rw [List.length_flatMap]
      have h2 : List.map (List.length ∘ roundNames (n + 1) S a0 a1) (List.range n)
          = List.map (fun _ => S - 1 + 1) (List.range n) := by
        apply List.map_congr_left
        intro a ha
        simp only [List.mem_range] at ha
        simp only [Function.comp_apply, roundNames_len]
        rw [if_pos (by omega)]
      rw [h2, List.map_const', List.sum_replicate, smul_eq_mul, List.length_range]
    have h4 : (List.flatMap [n] (roundNames (n + 1) S a0 a1)).length = S - 1 := by
      simp [roundNames_len]
    rw [h1, h4, Nat.mul_succ, Nat.succ_mul]
    omega

/-- C1: for every valid order, the number of state names returned by
`make_harvey_state_names` equals `k_states = S*D + d + max(p + P*S, q + Q*S + 1)`,
and `make_SARIMA_transition_matrix` is a square matrix with exactly `k_states`
rows and `k_states` columns, even though the sizes are computed independently. -/
theorem C1_theorem (p d q P D Q S : Nat) (hS : 0 < D → 1 ≤ S) :
    (make_harvey_state_names p d q P D Q S).length
        = S * D + d + max (p + P * S) (q + Q * S + 1) ∧
    (make_SARIMA_transition_matrix p d q P D Q S).rows
        = S * D + d + max (p + P * S) (q + Q * S + 1) ∧
    (make_SARIMA_transition_matrix p d q P D Q S).cols
        = S * D + d + max (p + P * S) (q + Q * S + 1) := by
  have hk : q + Q * S + 1 ≤ max (p + P * S) (q + Q * S + 1) := le_max_right _ _
  refine ⟨?_, ?_, ?_⟩
  · rw [make_harvey_eq_raw]
    unfold cleanup_states rawNames
    simp only [List.length_map, List.length_append, List.length_range,
      flatMap_roundNames_len, List.length_cons, List.length_nil]
    have hsub : D * (S - 1) = D * S - D * 1 := Nat.mul_sub D S 1
    have hcomm : D * S = S * D := Nat.mul_comm D S
    by_cases hD : 0 < D
    · have hS1 : 1 ≤ S := hS hD
      have hDS : D ≤ S * D := Nat.le_mul_of_pos_left D hS1
      rw [if_pos (by omega : 0 < d + D), if_pos hD]
      simp only [List.length_cons, List.length_nil]
      omega
    · have hD0 : D = 0 := by omega
      subst hD0
      simp only [Nat.mul_zero, Nat.zero_mul, if_neg (by omega : ¬ (0:Nat) < 0)]
      by_cases hd : 0 < d
      · rw [if_pos (by omega : 0 < d + 0)]
        simp only [List.length_cons, List.length_nil]
        omega
      · rw [if_neg (by omega : ¬ 0 < d + 0)]
        simp only [List.length_nil]
        omega
  · simp only [make_SARIMA_transition_matrix]
    omega
  · simp only [make_SARIMA_transition_matrix]
    omega

/-- C1 witness: the theorem applied at the concrete valid order
`(1, 1, 1, 1, 1, 1, 4)`. -/
theorem C1_witness :
    ((0:Nat) < 1 → (1:Nat) ≤ 4) ∧
    ((make_harvey_state_names 1 1 1 1 1 1 4).length
        = 4 * 1 + 1 + max (1 + 1 * 4) (1 + 1 * 4 + 1) ∧
     (make_SARIMA_transition_matrix 1 1 1 1 1 1 4).rows
        = 4 * 1 + 1 + max (1 + 1 * 4) (1 + 1 * 4 + 1) ∧
     (make_SARIMA_transition_matrix 1 1 1 1 1 1 4).cols
        = 4 * 1 + 1 + max (1 + 1 * 4) (1 + 1 * 4 + 1)) :=
  ⟨by decide, C1_theorem 1 1 1 1 1 1 4 (by decide)⟩

/-- C8: for every valid order, every entry of the transition matrix returned by
`make_SARIMA_transition_matrix` is exactly 0 or exactly 1. -/
theorem C8_theorem (p d q P D Q S : Nat) (hS : 0 < D → 1 ≤ S) (i j : Nat) :
    (make_SARIMA_transition_matrix p d q P D Q S).entry i j = 0 ∨
    (make_SARIMA_transition_matrix p d q P D Q S).entry i j = 1 := by
  clear hS
  simp only [make_SARIMA_transition_matrix, setIdx, ite_apply]
  split_ifs <;> simp

/-- C8 witness: the theorem applied at the concrete valid order
`(0, 0, 0, 0, 1, 0, 4)` and entry `(0, 3)`. -/
theorem C8_witness :
    ((0:Nat) < 1 → (1:Nat) ≤ 4) ∧
    ((make_SARIMA_transition_matrix 0 0 0 0 1 0 4).entry 0 3 = 0 ∨
     (make_SARIMA_transition_matrix 0 0 0 0 1 0 4).entry 0 3 = 1) :=
  ⟨by decide, C8_theorem 0 0 0 0 1 0 4 (by decide) 0 3⟩

theorem mem_triu_indices {d i j : Nat} :
    (i, j) ∈ triu_indices d ↔ i ≤ j ∧ j < d := by
  simp only [triu_indices, List.mem_flatMap, List.mem_map, List.mem_filter,
    List.mem_range, decide_eq_true_eq, Prod.mk.injEq]
  constructor
  · rintro ⟨a, ha, b, ⟨hb, hab⟩, rfl, rfl⟩
    exact ⟨hab, hb⟩
  · rintro ⟨hij, hj⟩
    exact ⟨i, by omega, j, ⟨hj, hij⟩, rfl, rfl⟩

theorem sarimaRc_fold (d S : Nat) (base : List Nat) (l : List Nat) :
    ∀ (r c : List Nat),
    l.foldl (sarimaRcStep d S base) (r, c) =
      (r ++ l.flatMap (fun i => List.replicate (base.drop i).length (d + S * i)),
       c ++ l.flatMap (fun i => base.drop i)) := by
  induction l with
  | nil => intro r c; simp
  | cons x xs ih => intro r c; simp [sarimaRcStep, ih, List.append_assoc]

theorem not_mem_rc_row (d D S x : Nat) (len : Nat → Nat)
    (hS : 0 < D → 1 ≤ S) (hx : S * D + d ≤ x) :
    x ∉ ((List.range d).flatMap (fun i => List.replicate (D + 1) i) ++
         (List.range D).flatMap (fun i => List.replicate (len i) (d + S * i))) := by
  intro hmem
  rcases List.mem_append.mp hmem with h | h
  · simp only [List.mem_flatMap, List.mem_replicate, List.mem_range] at h
    obtain ⟨a, ha, -, rfl⟩ := h
    omega
  · simp only [List.mem_flatMap, List.mem_replicate, List.mem_range] at h
    obtain ⟨a, ha, -, rfl⟩ := h
    have hS1 : 1 ≤ S := hS (by omega)
    have hmul : S * a + S ≤ S * D := by
      calc S * a + S = S * (a + 1) := by ring
      _ ≤ S * D := Nat.mul_le_mul_left S (by omega)
    omega

theorem not_mem_zip_left {x y : Nat} {R C : List Nat} (h : x ∉ R) :
    (x, y) ∉ R.zip C := fun hm => h (List.of_mem_zip hm).1

/-- C2: for every valid order, writing `n_diffs = S*D + d` and
`k_lags = max(p + P*S, q + Q*S + 1)`, the transition matrix has
`T[n_diffs + i, n_diffs + 1 + i] = 1` for `i < k_lags - 1`, and every other entry
of the bottom-right `k_lags`-by-`k_lags` block is 0, regardless of the
differencing configuration. -/
theorem C2_theorem (p d q P D Q S : Nat) (hS : 0 < D → 1 ≤ S) :
    (∀ i, i < max (p + P * S) (q + Q * S + 1) - 1 →
      (make_SARIMA_transition_matrix p d q P D Q S).entry
        (S * D + d + i) (S * D + d + 1 + i) = 1) ∧
    (∀ i j, i < max (p + P * S) (q + Q * S + 1) →
      j < max (p + P * S) (q + Q * S + 1) → j ≠ i + 1 →
      (make_SARIMA_transition_matrix p d q P D Q S).entry
        (S * D + d + i) (S * D + d + j) = 0) := by
  constructor
  · intro i hi
    simp only [make_SARIMA_transition_matrix, setIdx, ite_apply]
    rw [if_pos]
    simp only [List.mem_map, List.mem_range]
    exact ⟨i, hi, by rw [Prod.mk.injEq]; omega⟩
  · intro i j hikl hjkl hne
    simp only [make_SARIMA_transition_matrix, setIdx, ite_apply]
    rw [sarimaRc_fold]
    have hstar : (S * D + d + i, S * D + d + j) ∉
        (List.range (max (p + P * S) (q + Q * S + 1) - 1)).map
          (fun k => (k + (S * D + d), k + (S * D + d) + 1)) := by
      simp only [List.mem_map, List.mem_range, Prod.mk.injEq, not_exists]
      intro k
      rintro ⟨hk, hr, hc⟩
      omega
    rw [if_neg hstar]
    have htriu : (S * D + d + i, S * D + d + j) ∉ triu_indices d := by
      rw [mem_triu_indices]
      rintro ⟨hr, hc⟩
      omega
    by_cases hDd : D = 0 ∧ 0 < d
    · obtain ⟨hD0, hd0⟩ := hDd
      subst hD0
      rw [if_pos (show (0:Nat) = 0 ∧ 0 < d from ⟨rfl, hd0⟩)]
      have hzip2 : (d + i, d + j) ∉ (List.range d).zip (List.replicate d d) := by
        apply not_mem_zip_left
        simp only [List.mem_range]
        omega
      have htriu2 : (d + i, d + j) ∉ triu_indices d := by
        rw [mem_triu_indices]
        rintro ⟨hr, hc⟩
        omega
      simp [hzip2, htriu2]
    · rw [if_neg hDd]
      dsimp only
      have hrow : (S * D + d + i) ∉
          ((List.range d).flatMap (fun i => List.replicate (D + 1) i) ++
           (List.range D).flatMap (fun i =>
             List.replicate ((sarima_base_col_idx d D S).drop i).length (d + S * i))) :=
        not_mem_rc_row d D S _ _ hS (by omega)
      rw [if_neg (not_mem_zip_left hrow), if_neg htriu]
      by_cases hS0 : 0 < S
      · rw [if_pos hS0]
        have hroll : (S * D + d + i, S * D + d + j) ∉
            (List.range (S * D)).map (fun k => (k + d + 1, k + d)) := by
          simp only [List.mem_map, List.mem_range, Prod.mk.injEq, not_exists]
          intro k
          rintro ⟨hk, hr, hc⟩
          omega
        have hzero : (S * D + d + i, S * D + d + j) ∉
            ((List.range (S * D)).filter (fun k => k % S == S - 1)).map
              (fun k => (k + d + 1, k + d)) := by
          intro hm
          apply hroll
          simp only [List.mem_map, List.mem_filter] at hm ⊢
          obtain ⟨k, ⟨hk, -⟩, he⟩ := hm
          exact ⟨k, hk, he⟩
        rw [if_neg hzero, if_neg hroll]
      · rw [if_neg hS0]

/-- C2 witness: the theorem applied at the concrete valid order
`(2, 1, 0, 0, 1, 0, 4)`, giving the superdiagonal 1 at `(5, 6)` and the
off-superdiagonal 0 at `(5, 5)`. -/
theorem C2_witness :
    ((0:Nat) < 1 → (1:Nat) ≤ 4) ∧
    (make_SARIMA_transition_matrix 2 1 0 0 1 0 4).entry 5 6 = 1 ∧
    (make_SARIMA_transition_matrix 2 1 0 0 1 0 4).entry 5 5 = 0 :=
  ⟨by decide,
   (C2_theorem 2 1 0 0 1 0 4 (by decide)).1 0 (by decide),
   (C2_theorem 2 1 0 0 1 0 4 (by decide)).2 0 0 (by decide) (by decide) (by decide)⟩

/-- C7: for every order with `d > 0` and `D = 0`, the top-left `d`-by-`d` block of
the transition matrix is upper triangular: entry 1 whenever `i ≤ j < d` and entry 0
whenever `j < i < d`. -/
theorem C7_theorem (p d q P D Q S : Nat) (hd : 0 < d) (hD : D = 0) :
    (∀ i j, i ≤ j → j < d →
      (make_SARIMA_transition_matrix p d q P D Q S).entry i j = 1) ∧
    (∀ i j, j < i → i < d →
      (make_SARIMA_transition_matrix p d q P D Q S).entry i j = 0) := by
  subst hD
  constructor
  · intro i j hij hj
    simp only [make_SARIMA_transition_matrix, setIdx, ite_apply, Nat.mul_zero, Nat.zero_add]
    rw [if_pos (show True ∧ 0 < d from ⟨trivial, hd⟩)]
    have hstar : (i, j) ∉ (List.range (max (p + P * S) (q + Q * S + 1) - 1)).map
        (fun k => (k + d, k + d + 1)) := by
      simp only [List.mem_map, List.mem_range, Prod.mk.injEq, not_exists]
      intro k
      rintro ⟨hk, hr, hc⟩
      omega
    have hzip : (i, j) ∉ (List.range d, List.replicate d d).1.zip
        (List.range d, List.replicate d d).2 := by
      intro hm
      have := (List.of_mem_zip hm).2
      rw [List.mem_replicate] at this
      omega
    simp [hstar, hzip, mem_triu_indices.mpr ⟨hij, hj⟩]
  · intro i j hji hi
    simp only [make_SARIMA_transition_matrix, setIdx, ite_apply, Nat.mul_zero, Nat.zero_add]
    rw [if_pos (show True ∧ 0 < d from ⟨trivial, hd⟩)]
    have hstar : (i, j) ∉ (List.range (max (p + P * S) (q + Q * S + 1) - 1)).map
        (fun k => (k + d, k + d + 1)) := by
      simp only [List.mem_map, List.mem_range, Prod.mk.injEq, not_exists]
      intro k
      rintro ⟨hk, hr, hc⟩
      omega
    have hzip : (i, j) ∉ (List.range d, List.replicate d d).1.zip
        (List.range d, List.replicate d d).2 := by
      intro hm
      have := (List.of_mem_zip hm).2
      rw [List.mem_replicate] at this
      omega
    have htriu : (i, j) ∉ triu_indices d := by
      rw [mem_triu_indices]
      rintro ⟨hr, hc⟩
      omega
    simp [hstar, hzip, htriu]

/-- C7 witness: the theorem applied at the concrete order `(0, 2, 0, 0, 0, 0, 0)`,
giving the on-diagonal 1 at `(0, 1)` and the below-diagonal 0 at `(1, 0)`. -/
theorem C7_witness :
    ((0:Nat) < 2 ∧ (0:Nat) = 0) ∧
    (make_SARIMA_transition_matrix 0 2 0 0 0 0 0).entry 0 1 = 1 ∧
    (make_SARIMA_transition_matrix 0 2 0 0 0 0 0).entry 1 0 = 0 :=
  ⟨⟨by decide, rfl⟩,
   (C7_theorem 0 2 0 0 0 0 0 (by decide) rfl).1 0 1 (by decide) (by decide),
   (C7_theorem 0 2 0 0 0 0 0 (by decide) rfl).2 1 0 (by decide) (by decide)⟩

theorem natCharsCore_acc : ∀ (fuel n : Nat) (acc : List Char),
    natCharsCore fuel n acc = natCharsCore fuel n [] ++ acc := by
  intro fuel
  induction fuel with
  | zero => intro n acc; simp [natCharsCore]
  | succ f ih =>
    intro n acc
    by_cases h : n < 10
    · simp [natCharsCore, h]
    · simp only [natCharsCore, if_neg h]
      rw [ih (n / 10) (digitChar (n % 10) :: acc), ih (n / 10) [digitChar (n % 10)]]
      simp

theorem natCharsCore_fuel : ∀ (f1 f2 n : Nat) (acc : List Char),
    n < 10 ^ f1 → 0 < f1 → f1 ≤ f2 →
    natCharsCore f1 n acc = natCharsCore f2 n acc := by
  intro f1
  induction f1 with
  | zero => intro f2 n acc _ h; omega
  | succ f ih =>
    intro f2 n acc hn _ hle
    obtain ⟨g, rfl⟩ : ∃ g, f2 = g + 1 := ⟨f2 - 1, by omega⟩
    by_cases h : n < 10
    · simp [natCharsCore, h]
    · simp only [natCharsCore, if_neg h]
      have hf : 0 < f := by
        by_contra hf0
        have : f = 0 := by omega
        subst this
        simp at hn
        omega
      exact ih g (n / 10) _ (by
        have : 10 ^ (f + 1) = 10 ^ f * 10 := by ring
        omega) hf (by omega)

theorem natChars_small {n : Nat} (h : n < 10) : natChars n = [digitChar n] := by
  simp [natChars, natCharsCore, h]

theorem natChars_rec {n : Nat} (h : 10 ≤ n) :
    natChars n = natChars (n / 10) ++ [digitChar (n % 10)] := by
  have h1 : natChars n = natCharsCore n (n / 10) [digitChar (n % 10)] := by
    simp [natChars, natCharsCore, Nat.not_lt.mpr h]
  have h2 : natCharsCore n (n / 10) [digitChar (n % 10)]
      = natCharsCore (n / 10 + 1) (n / 10) [digitChar (n % 10)] := by
    refine (natCharsCore_fuel (n / 10 + 1) n (n / 10) _ ?_ (by omega) ?_).symm
    · calc n / 10 < 10 ^ (n / 10) := Nat.lt_pow_self (by omega) _
      _ ≤ 10 ^ (n / 10 + 1) := Nat.pow_le_pow_right (by omega) (by omega)
    · have := Nat.div_lt_self (by omega : 0 < n) (by omega : 1 < 10)
      omega
  rw [h1, h2, natCharsCore_acc]
  rfl

theorem digitChar_isDigit (n : Nat) : (digitChar n).isDigit = true := by
  unfold digitChar
  split_ifs <;> decide

theorem digitChar_val {n : Nat} (h : n < 10) : (digitChar n).toNat - 48 = n := by
  interval_cases n <;> decide

theorem digitChar_ne_zero {n : Nat} (h0 : 0 < n) (h : n < 10) : digitChar n ≠ '0' := by
  interval_cases n <;> decide

theorem natChars_digits {n : Nat} : ∀ c ∈ natChars n, c.isDigit = true := by
  induction n using Nat.strong_induction_on with
  | _ n ih =>
    by_cases h : n < 10
    · rw [natChars_small h]
      intro c hc
      simp only [List.mem_singleton] at hc
      subst hc
      exact digitChar_isDigit n
    · rw [natChars_rec (by omega)]
      intro c hc
      rcases List.mem_append.mp hc with h1 | h1
      · exact ih (n / 10) (Nat.div_lt_self (by omega) (by omega)) c h1
      · simp only [List.mem_singleton] at h1
        subst h1
        exact digitChar_isDigit _

theorem natChars_cons (n : Nat) :
    ∃ h t, natChars n = h :: t ∧ h.isDigit = true ∧ (0 < n → h ≠ '0') := by
  induction n using Nat.strong_induction_on with
  | _ n ih =>
    by_cases h : n < 10
    · rw [natChars_small h]
      exact ⟨digitChar n, [], rfl, digitChar_isDigit n, fun h0 => digitChar_ne_zero h0 h⟩
    · rw [natChars_rec (by omega)]
      obtain ⟨c, t, he, hd, hz⟩ := ih (n / 10) (Nat.div_lt_self (by omega) (by omega))
      exact ⟨c, t ++ [digitChar (n % 10)], by rw [he]; rfl, hd,
        fun _ => hz (by omega)⟩

theorem charsToNat_concat (l : List Char) (c : Char) :
    charsToNat (l ++ [c]) = 10 * charsToNat l + (c.toNat - 48) := by
  simp [charsToNat, List.foldl_append]

theorem charsToNat_natChars (n : Nat) : charsToNat (natChars n) = n := by
  induction n using Nat.strong_induction_on with
  | _ n ih =>
    by_cases h : n < 10
    · rw [natChars_small h]
      have : charsToNat [digitChar n] = (digitChar n).toNat - 48 := by
        simp [charsToNat]
      rw [this, digitChar_val h]
    · rw [natChars_rec (by omega), charsToNat_concat,
        ih (n / 10) (Nat.div_lt_self (by omega) (by omega)),
        digitChar_val (by omega : n % 10 < 10)]
      omega

theorem natChars_injective {m n : Nat} (h : natChars m = natChars n) : m = n := by
  have := congrArg charsToNat h
  rwa [charsToNat_natChars, charsToNat_natChars] at this

theorem removePat_cons_ne {a x : Char} (b : Char) (h : x ≠ a) (t : List Char) :
    removePat a b (x :: t) = x :: removePat a b t := by
  cases t with
  | nil => rfl
  | cons y s => simp [removePat, h]

theorem removePat_cons2_ne {a b y : Char} (h : y ≠ b) (s : List Char) :
    removePat a b (a :: y :: s) = a :: removePat a b (y :: s) := by
  simp [removePat, h]

theorem removePat_match (a b : Char) (s : List Char) :
    removePat a b (a :: b :: s) = removePat a b s := by
  simp [removePat]

theorem removePat_append_ne {a : Char} (b : Char) {u : List Char}
    (hu : ∀ c ∈ u, c ≠ a) (v : List Char) :
    removePat a b (u ++ v) = u ++ removePat a b v := by
  induction u with
  | nil => rfl
  | cons x t ih =>
    rw [List.cons_append, removePat_cons_ne b (hu x (by simp)) ,
      ih (fun c hc => hu c (by simp [hc]))]
    rfl

theorem removePat_id {a : Char} (b : Char) {l : List Char} (h : ∀ c ∈ l, c ≠ a) :
    removePat a b l = l := by
  have h2 := removePat_append_ne b h []
  have h0 : removePat a b ([] : List Char) = [] := rfl
  simpa [h0] using h2

theorem digit_ne {c x : Char} (hc : c.isDigit = true) (hx : x.isDigit = false) : c ≠ x := by
  intro h
  subst h
  rw [hc] at hx
  cases hx

theorem natChars_ne {n : Nat} {x : Char} (hx : x.isDigit = false) :
    ∀ c ∈ natChars n, c ≠ x :=
  fun c hc => digit_ne (natChars_digits c hc) hx

theorem caretNat_ne {k : Nat} {x : Char} (hx : x.isDigit = false) (hc : x ≠ '^') :
    ∀ c ∈ caretNat k, c ≠ x := by
  intro c hmem
  unfold caretNat at hmem
  split_ifs at hmem
  · exact digit_ne (natChars_digits c (List.mem_of_mem_tail hmem)) hx
  · rcases List.mem_cons.mp hmem with rfl | h
    · exact fun he => hc he.symm
    · exact digit_ne (natChars_digits c h) hx

theorem rm1_caret (k : Nat) (hk : 0 < k) (v : List Char) :
    removePat '^' '1' ('^' :: (natChars k ++ v))
      = caretNat k ++ removePat '^' '1' v := by
  obtain ⟨h, t, he, hd, hz⟩ := natChars_cons k
  by_cases h1 : h = '1'
  · subst h1
    rw [he, List.cons_append, removePat_match,
      removePat_append_ne _ (fun c hc =>
        digit_ne (natChars_digits c (by rw [he]; exact List.mem_cons_of_mem _ hc))
          (by decide)) v]
    simp [caretNat, he]
  · rw [he, List.cons_append, removePat_cons2_ne h1,
      ← List.cons_append,
      removePat_append_ne _ (fun c hc =>
        digit_ne (natChars_digits c (by rw [he]; exact hc)) (by decide)) v]
    have : caretNat k = '^' :: natChars k := by
      rw [caretNat, if_neg]
      rw [he]
      simpa using h1
    rw [this, he]
    rfl

theorem rm0_caret (k : Nat) (hk : 0 < k) (v : List Char) :
    removePat '^' '0' (caretNat k ++ v) = caretNat k ++ removePat '^' '0' v := by
  obtain ⟨h, t, he, hd, hz⟩ := natChars_cons k
  unfold caretNat
  rw [he]
  by_cases h1 : h = '1'
  · subst h1
    simp only [List.headD_cons, if_pos rfl, List.tail_cons]
    exact removePat_append_ne _ (fun c hc =>
      digit_ne (natChars_digits c (by rw [he]; exact List.mem_cons_of_mem _ hc))
        (by decide)) v
  · simp only [List.headD_cons, if_neg h1]
    rw [List.cons_append, List.cons_append,
      removePat_cons2_ne (show h ≠ '0' from hz hk),
      ← List.cons_append,
      removePat_append_ne _ (fun c hc =>
        digit_ne (natChars_digits c (by rw [he]; exact hc)) (by decide)) v]
    rfl

theorem rm_caret_skip {a : Char} (b : Char) (k : Nat)
    (hx : a.isDigit = false) (hc : a ≠ '^') (v : List Char) :
    removePat a b (caretNat k ++ v) = caretNat k ++ removePat a b v :=
  removePat_append_ne b (fun c hm => caretNat_ne hx (by exact hc) c hm) v

theorem cleanup_F2 (k : Nat) (hk : 0 < k) :
    cleanupName (("D1^").toList ++ natChars k ++ (".data").toList)
      = 'D' :: '1' :: (caretNat k ++ dotData) := by
  have e1 : ("D1^").toList ++ natChars k ++ (".data").toList
      = 'D' :: '1' :: ('^' :: (natChars k ++ dotData)) := by
    simp [dotData]
  have s1 : removePat '^' '1' ('D' :: '1' :: ('^' :: (natChars k ++ dotData)))
      = 'D' :: '1' :: (caretNat k ++ dotData) := by
    rw [removePat_cons_ne _ (by decide) _, removePat_cons_ne _ (by decide) _,
      rm1_caret k hk, (show removePat '^' '1' dotData = dotData from rfl)]
  have s2 : removePat '^' '0' ('D' :: '1' :: (caretNat k ++ dotData))
      = 'D' :: '1' :: (caretNat k ++ dotData) := by
    rw [removePat_cons_ne _ (by decide) _, removePat_cons_ne _ (by decide) _,
      rm0_caret k hk, (show removePat '^' '0' dotData = dotData from rfl)]
  have s3 : removePat 'L' '0' ('D' :: '1' :: (caretNat k ++ dotData))
      = 'D' :: '1' :: (caretNat k ++ dotData) := by
    rw [removePat_cons_ne _ (by decide) _, removePat_cons_ne _ (by decide) _,
      rm_caret_skip _ k (by decide) (by decide) _,
      (show removePat 'L' '0' dotData = dotData from rfl)]
  have s4 : removePat 'D' '0' ('D' :: '1' :: (caretNat k ++ dotData))
      = 'D' :: '1' :: (caretNat k ++ dotData) := by
    rw [removePat_cons2_ne (by decide : ('1':Char) ≠ '0'),
      removePat_cons_ne _ (by decide) _,
      rm_caret_skip _ k (by decide) (by decide) _,
      (show removePat 'D' '0' dotData = dotData from rfl)]
  rw [cleanupName, e1, s1, s2, s3, s4]

theorem rm1_SegS (S r : Nat) (hr : 0 < r) :
    removePat '^' '1' ('D' :: (natChars S ++ '^' :: (natChars r ++ dotData)))
      = 'D' :: (natChars S ++ (caretNat r ++ dotData)) := by
  rw [removePat_cons_ne _ (by decide) _,
    removePat_append_ne _ (natChars_ne (by decide)) _,
    rm1_caret r hr, (show removePat '^' '1' dotData = dotData from rfl)]

theorem rm0_SegS (S r : Nat) (hr : 0 < r) :
    removePat '^' '0' ('D' :: (natChars S ++ (caretNat r ++ dotData)))
      = 'D' :: (natChars S ++ (caretNat r ++ dotData)) := by
  rw [removePat_cons_ne _ (by decide) _,
    removePat_append_ne _ (natChars_ne (by decide)) _,
    rm0_caret r hr, (show removePat '^' '0' dotData = dotData from rfl)]

theorem rmL_SegS (S r : Nat) :
    removePat 'L' '0' ('D' :: (natChars S ++ (caretNat r ++ dotData)))
      = 'D' :: (natChars S ++ (caretNat r ++ dotData)) := by
  rw [removePat_cons_ne _ (by decide) _,
    removePat_append_ne _ (natChars_ne (by decide)) _,
    rm_caret_skip _ r (by decide) (by decide) _,
    (show removePat 'L' '0' dotData = dotData from rfl)]

theorem rmD_SegS (S r : Nat) (hS : 0 < S) :
    removePat 'D' '0' ('D' :: (natChars S ++ (caretNat r ++ dotData)))
      = 'D' :: (natChars S ++ (caretNat r ++ dotData)) := by
  obtain ⟨h, t, he, hd, hz⟩ := natChars_cons S
  rw [he, List.cons_append, removePat_cons2_ne (hz hS),
    removePat_cons_ne _ (digit_ne hd (by decide)) _,
    removePat_append_ne _ (fun c hc =>
      digit_ne (natChars_digits c (by rw [he]; exact List.mem_cons_of_mem _ hc))
        (by decide)) _,
    rm_caret_skip _ r (by decide) (by decide) _,
    (show removePat 'D' '0' dotData = dotData from rfl)]

theorem cleanup_IAr (S r : Nat) (hS : 0 < S) (hr : 0 < r) :
    cleanupName ('D' :: '0' :: '^' :: '0' :: 'D' :: (natChars S ++ '^' :: (natChars r ++ dotData)))
      = 'D' :: (natChars S ++ (caretNat r ++ dotData)) := by
  have s1 : removePat '^' '1'
      ('D' :: '0' :: '^' :: '0' :: 'D' :: (natChars S ++ '^' :: (natChars r ++ dotData)))
      = 'D' :: '0' :: '^' :: '0' :: 'D' :: (natChars S ++ (caretNat r ++ dotData)) := by
    rw [removePat_cons_ne _ (by decide) _, removePat_cons_ne _ (by decide) _,
      removePat_cons2_ne (by decide : ('0':Char) ≠ '1'),
      removePat_cons_ne _ (by decide) _, rm1_SegS S r hr]
  have s2 : removePat '^' '0'
      ('D' :: '0' :: '^' :: '0' :: 'D' :: (natChars S ++ (caretNat r ++ dotData)))
      = 'D' :: '0' :: 'D' :: (natChars S ++ (caretNat r ++ dotData)) := by
    rw [removePat_cons_ne _ (by decide) _, removePat_cons_ne _ (by decide) _,
      removePat_match, rm0_SegS S r hr]
  have s3 : removePat 'L' '0'
      ('D' :: '0' :: 'D' :: (natChars S ++ (caretNat r ++ dotData)))
      = 'D' :: '0' :: 'D' :: (natChars S ++ (caretNat r ++ dotData)) := by
    rw [removePat_cons_ne _ (by decide) _, removePat_cons_ne _ (by decide) _, rmL_SegS S r]
  have s4 : removePat 'D' '0'
      ('D' :: '0' :: 'D' :: (natChars S ++ (caretNat r ++ dotData)))
      = 'D' :: (natChars S ++ (caretNat r ++ dotData)) := by
    rw [removePat_match, rmD_SegS S r hS]
  rw [cleanupName, s1, s2, s3, s4]

theorem cleanup_IBr (d S r : Nat) (hd : 0 < d) (hS : 0 < S) (hr : 0 < r) :
    cleanupName ('D' :: '1' :: '^' :: (natChars d ++ 'D' :: (natChars S ++ '^' :: (natChars r ++ dotData))))
      = 'D' :: '1' :: (caretNat d ++ 'D' :: (natChars S ++ (caretNat r ++ dotData))) := by
  have s1 : removePat '^' '1'
      ('D' :: '1' :: '^' :: (natChars d ++ 'D' :: (natChars S ++ '^' :: (natChars r ++ dotData))))
      = 'D' :: '1' :: (caretNat d ++ 'D' :: (natChars S ++ (caretNat r ++ dotData))) := by
    rw [removePat_cons_ne _ (by decide) _, removePat_cons_ne _ (by decide) _,
      rm1_caret d hd, rm1_SegS S r hr]
  have s2 : removePat '^' '0'
      ('D' :: '1' :: (caretNat d ++ 'D' :: (natChars S ++ (caretNat r ++ dotData))))
      = 'D' :: '1' :: (caretNat d ++ 'D' :: (natChars S ++ (caretNat r ++ dotData))) := by
    rw [removePat_cons_ne _ (by decide) _, removePat_cons_ne _ (by decide) _,
      rm0_caret d hd, rm0_SegS S r hr]
  have s3 : removePat 'L' '0'
      ('D' :: '1' :: (caretNat d ++ 'D' :: (natChars S ++ (caretNat r ++ dotData))))
      = 'D' :: '1' :: (caretNat d ++ 'D' :: (natChars S ++ (caretNat r ++ dotData))) := by
    rw [removePat_cons_ne _ (by decide) _, removePat_cons_ne _ (by decide) _,
      rm_caret_skip _ d (by decide) (by decide) _, rmL_SegS S r]
  have s4 : removePat 'D' '0'
      ('D' :: '1' :: (caretNat d ++ 'D' :: (natChars S ++ (caretNat r ++ dotData))))
      = 'D' :: '1' :: (caretNat d ++ 'D' :: (natChars S ++ (caretNat r ++ dotData))) := by
    rw [removePat_cons2_ne (by decide : ('1':Char) ≠ '0'),
      removePat_cons_ne _ (by decide) _,
      rm_caret_skip _ d (by decide) (by decide) _, rmD_SegS S r hS]
  rw [cleanupName, s1, s2, s3, s4]

theorem rmPrefixL_other {a : Char} (b : Char) (ha : a.isDigit = false)
    (haL : ('L':Char) ≠ a) (j : Nat) (W : List Char) :
    removePat a b ('L' :: (natChars j ++ W))
      = 'L' :: (natChars j ++ removePat a b W) := by
  rw [removePat_cons_ne _ haL _, removePat_append_ne _ (natChars_ne ha) W]

theorem rmPrefixL_L (j : Nat) (hj : 0 < j) (W : List Char) :
    removePat 'L' '0' ('L' :: (natChars j ++ W))
      = 'L' :: (natChars j ++ removePat 'L' '0' W) := by
  obtain ⟨h, t, he, hd, hz⟩ := natChars_cons j
  rw [he, List.cons_append, removePat_cons2_ne (hz hj),
    removePat_cons_ne _ (digit_ne hd (by decide)) _,
    removePat_append_ne _ (fun c hc =>
      digit_ne (natChars_digits c (by rw [he]; exact List.mem_cons_of_mem _ hc))
        (by decide)) W]
  rfl

theorem rm1_B0 (d : Nat) (hd : 0 < d) :
    removePat '^' '1' ('D' :: '1' :: '^' :: (natChars d ++ dotData))
      = 'D' :: '1' :: (caretNat d ++ dotData) := by
  rw [removePat_cons_ne _ (by decide) _, removePat_cons_ne _ (by decide) _,
    rm1_caret d hd, (show removePat '^' '1' dotData = dotData from rfl)]

theorem rm0_B0 (d : Nat) (hd : 0 < d) :
    removePat '^' '0' ('D' :: '1' :: (caretNat d ++ dotData))
      = 'D' :: '1' :: (caretNat d ++ dotData) := by
  rw [removePat_cons_ne _ (by decide) _, removePat_cons_ne _ (by decide) _,
    rm0_caret d hd, (show removePat '^' '0' dotData = dotData from rfl)]

theorem rmL_B0 (d : Nat) :
    removePat 'L' '0' ('D' :: '1' :: (caretNat d ++ dotData))
      = 'D' :: '1' :: (caretNat d ++ dotData) := by
  rw [removePat_cons_ne _ (by decide) _, removePat_cons_ne _ (by decide) _,
    rm_caret_skip _ d (by decide) (by decide) _,
    (show removePat 'L' '0' dotData = dotData from rfl)]

theorem rmD_B0 (d : Nat) :
    removePat 'D' '0' ('D' :: '1' :: (caretNat d ++ dotData))
      = 'D' :: '1' :: (caretNat d ++ dotData) := by
  rw [removePat_cons2_ne (by decide : ('1':Char) ≠ '0'),
    removePat_cons_ne _ (by decide) _,
    rm_caret_skip _ d (by decide) (by decide) _,
    (show removePat 'D' '0' dotData = dotData from rfl)]

theorem cleanup_LA0 (j : Nat) (hj : 0 < j) :
    cleanupName ('L' :: (natChars j ++ ('D' :: '0' :: '^' :: '0' :: dotData)))
      = 'L' :: (natChars j ++ dotData) := by
  rw [cleanupName,
    rmPrefixL_other ('1') (by decide) (by decide) j _,
    (show removePat '^' '1' ('D' :: '0' :: '^' :: '0' :: dotData)
      = 'D' :: '0' :: '^' :: '0' :: dotData from rfl),
    rmPrefixL_other ('0') (by decide) (by decide) j _,
    (show removePat '^' '0' ('D' :: '0' :: '^' :: '0' :: dotData)
      = 'D' :: '0' :: dotData from rfl),
    rmPrefixL_L j hj _,
    (show removePat 'L' '0' ('D' :: '0' :: dotData) = 'D' :: '0' :: dotData from rfl),
    rmPrefixL_other ('0') (by decide) (by decide) j _,
    (show removePat 'D' '0' ('D' :: '0' :: dotData) = dotData from rfl)]

theorem cleanup_LAr (j S r : Nat) (hj : 0 < j) (hS : 0 < S) (hr : 0 < r) :
    cleanupName ('L' :: (natChars j ++
        ('D' :: '0' :: '^' :: '0' :: 'D' :: (natChars S ++ '^' :: (natChars r ++ dotData)))))
      = 'L' :: (natChars j ++ ('D' :: (natChars S ++ (caretNat r ++ dotData)))) := by
  have s1 := cleanup_IAr S r hS hr
  rw [cleanupName] at s1
  rw [cleanupName,
    rmPrefixL_other ('1') (by decide) (by decide) j _,
    rmPrefixL_other ('0') (by decide) (by decide) j _,
    rmPrefixL_L j hj _,
    rmPrefixL_other ('0') (by decide) (by decide) j _,
    s1]

theorem cleanup_LB0 (j d : Nat) (hj : 0 < j) (hd : 0 < d) :
    cleanupName ('L' :: (natChars j ++ ('D' :: '1' :: '^' :: (natChars d ++ dotData))))
      = 'L' :: (natChars j ++ ('D' :: '1' :: (caretNat d ++ dotData))) := by
  rw [cleanupName,
    rmPrefixL_other ('1') (by decide) (by decide) j _, rm1_B0 d hd,
    rmPrefixL_other ('0') (by decide) (by decide) j _, rm0_B0 d hd,
    rmPrefixL_L j hj _, rmL_B0 d,
    rmPrefixL_other ('0') (by decide) (by decide) j _, rmD_B0 d]

theorem cleanup_LBr (j d S r : Nat) (hj : 0 < j) (hd : 0 < d) (hS : 0 < S) (hr : 0 < r) :
    cleanupName ('L' :: (natChars j ++
        ('D' :: '1' :: '^' :: (natChars d ++ 'D' :: (natChars S ++ '^' :: (natChars r ++ dotData))))))
      = 'L' :: (natChars j ++
        ('D' :: '1' :: (caretNat d ++ 'D' :: (natChars S ++ (caretNat r ++ dotData))))) := by
  have s1 := cleanup_IBr d S r hd hS hr
  rw [cleanupName] at s1
  rw [cleanupName,
    rmPrefixL_other ('1') (by decide) (by decide) j _,
    rmPrefixL_other ('0') (by decide) (by decide) j _,
    rmPrefixL_L j hj _,
    rmPrefixL_other ('0') (by decide) (by decide) j _,
    s1]

theorem natChars_zero : natChars 0 = ['0'] := rfl

theorem cleanupName_id {s : List Char} (h1 : ∀ c ∈ s, c ≠ '^')
    (h2 : ∀ c ∈ s, c ≠ 'L') (h3 : ∀ c ∈ s, c ≠ 'D') : cleanupName s = s := by
  rw [cleanupName, removePat_id _ h1, removePat_id _ h1, removePat_id _ h2,
    removePat_id _ h3]

theorem clean_Lname_A (S i j : Nat) (hS : 0 < S) (hj : 0 < j) :
    cleanupName (("L").toList ++ natChars j ++ currStr 0 0 S i ++ (".data").toList)
      = 'L' :: (natChars j ++ (cleanCurr 0 S i ++ dotData)) := by
  rcases Nat.eq_zero_or_pos i with rfl | hi
  · have e : ("L").toList ++ natChars j ++ currStr 0 0 S 0 ++ (".data").toList
        = 'L' :: (natChars j ++ ('D' :: '0' :: '^' :: '0' :: dotData)) := by
      simp [currStr, armaStr, natChars_zero, dotData, List.append_assoc]
    rw [e, cleanup_LA0 j hj]
    simp [cleanCurr]
  · have hne : i ≠ 0 := by omega
    have e : ("L").toList ++ natChars j ++ currStr 0 0 S i ++ (".data").toList
        = 'L' :: (natChars j ++
            ('D' :: '0' :: '^' :: '0' :: 'D' :: (natChars S ++ '^' :: (natChars i ++ dotData)))) := by
      simp [currStr, armaStr, natChars_zero, dotData, hne, List.append_assoc]
    rw [e, cleanup_LAr j S i hj hS hi]
    simp [cleanCurr, hne, List.append_assoc]

theorem clean_Lname_B (d S i j : Nat) (hd : 0 < d) (hS : 0 < S) (hj : 0 < j) :
    cleanupName (("L").toList ++ natChars j ++ currStr 1 d S i ++ (".data").toList)
      = 'L' :: (natChars j ++ (cleanCurr d S i ++ dotData)) := by
  have hdne : d ≠ 0 := by omega
  rcases Nat.eq_zero_or_pos i with rfl | hi
  · have e : ("L").toList ++ natChars j ++ currStr 1 d S 0 ++ (".data").toList
        = 'L' :: (natChars j ++ ('D' :: '1' :: '^' :: (natChars d ++ dotData))) := by
      simp [currStr, armaStr, dotData, List.append_assoc]
      rfl
    rw [e, cleanup_LB0 j d hj hd]
    simp [cleanCurr, hdne]
  · have hne : i ≠ 0 := by omega
    have e : ("L").toList ++ natChars j ++ currStr 1 d S i ++ (".data").toList
        = 'L' :: (natChars j ++ ('D' :: '1' :: '^' :: (natChars d ++
            'D' :: (natChars S ++ '^' :: (natChars i ++ dotData))))) := by
      simp [currStr, armaStr, dotData, hne, List.append_assoc]
      rfl
    rw [e, cleanup_LBr j d S i hj hd hS hi]
    simp [cleanCurr, hdne, hne, List.append_assoc]

theorem clean_inter_A (S r : Nat) (hS : 0 < S) (hr : 0 < r) :
    cleanupName (currStr 0 0 S r ++ (".data").toList) = cleanCurr 0 S r ++ dotData := by
  have hne : r ≠ 0 := by omega
  have e : currStr 0 0 S r ++ (".data").toList
      = 'D' :: '0' :: '^' :: '0' :: 'D' :: (natChars S ++ '^' :: (natChars r ++ dotData)) := by
    simp [currStr, armaStr, natChars_zero, dotData, hne, List.append_assoc]
  rw [e, cleanup_IAr S r hS hr]
  simp [cleanCurr, hne, List.append_assoc]

theorem clean_inter_B (d S r : Nat) (hd : 0 < d) (hS : 0 < S) (hr : 0 < r) :
    cleanupName (currStr 1 d S r ++ (".data").toList) = cleanCurr d S r ++ dotData := by
  have hne : r ≠ 0 := by omega
  have hdne : d ≠ 0 := by omega
  have e : currStr 1 d S r ++ (".data").toList
      = 'D' :: '1' :: '^' :: (natChars d ++ 'D' :: (natChars S ++ '^' :: (natChars r ++ dotData))) := by
    simp [currStr, armaStr, dotData, hne, List.append_assoc]
    rfl
  rw [e, cleanup_IBr d S r hd hS hr]
  simp [cleanCurr, hdne, hne, List.append_assoc]

theorem map_clean_roundNames_A (D S i : Nat) (hS : 0 < S) :
    (roundNames D S 0 0 i).map cleanupName = cleanRound 0 D S i := by
  unfold roundNames cleanRound
  rw [List.map_append, List.map_map]
  congr 1
  · apply List.map_congr_left
    intro j hj
    simp only [Function.comp_apply]
    exact clean_Lname_A S i (j + 1) hS (by omega)
  · by_cases h : i ≠ D - 1
    · simp only [if_pos h, List.map_cons, List.map_nil]
      rw [clean_inter_A S (i + 1) hS (by omega)]
    · simp [h]

theorem map_clean_roundNames_B (d D S i : Nat) (hd : 0 < d) (hS : 0 < S) :
    (roundNames D S 1 d i).map cleanupName = cleanRound d D S i := by
  unfold roundNames cleanRound
  rw [List.map_append, List.map_map]
  congr 1
  · apply List.map_congr_left
    intro j hj
    simp only [Function.comp_apply]
    exact clean_Lname_B d S i (j + 1) hd hS (by omega)
  · by_cases h : i ≠ D - 1
    · simp only [if_pos h, List.map_cons, List.map_nil]
      rw [clean_inter_B d S (i + 1) hd hS (by omega)]
    · simp [h]

theorem cleanup_states_eq_map (l : List (List Char)) :
    cleanup_states l = l.map cleanupName := rfl

theorem cleanupName_prefix_digits (u : List Char)
    (hu : ∀ c ∈ u, c ≠ '^' ∧ c ≠ 'L' ∧ c ≠ 'D') (k : Nat) :
    cleanupName (u ++ natChars k) = u ++ natChars k := by
  apply cleanupName_id
  · intro c hc
    rcases List.mem_append.mp hc with h | h
    · exact (hu c h).1
    · exact natChars_ne (by decide) c h
  · intro c hc
    rcases List.mem_append.mp hc with h | h
    · exact (hu c h).2.1
    · exact natChars_ne (by decide) c h
  · intro c hc
    rcases List.mem_append.mp hc with h | h
    · exact (hu c h).2.2
    · exact natChars_ne (by decide) c h

theorem flatMap_congr_left {α β : Type} {l : List α} {f g : α → List β}
    (h : ∀ a ∈ l, f a = g a) : l.flatMap f = l.flatMap g := by
  induction l with
  | nil => rfl
  | cons x xs ih =>
    simp only [List.flatMap_cons]
    rw [h x (by simp), ih (fun a ha => h a (by simp [ha]))]

theorem map_clean_segment3 (d D S : Nat) (hS : 0 < D → 1 ≤ S) :
    ((List.range D).flatMap (roundNames D S
        (if 1 < d + (if 0 < D then 1 else 0) then 1 else 0)
        ((d + (if 0 < D then 1 else 0)) - 1))).map cleanupName
      = (List.range D).flatMap (cleanRound d D S) := by
  rcases Nat.eq_zero_or_pos D with rfl | hD
  · simp
  · have hS1 : 0 < S := hS hD
    rw [if_pos hD]
    rcases Nat.eq_zero_or_pos d with rfl | hd
    · have h1 : ¬ (1 < 0 + 1) := by omega
      rw [if_neg h1]
      rw [List.map_flatMap]
      exact flatMap_congr_left (fun i _ => map_clean_roundNames_A D S i hS1)
    · have h1 : 1 < d + 1 := by omega
      rw [if_pos h1, (show d + 1 - 1 = d from by omega)]
      rw [List.map_flatMap]
      exact flatMap_congr_left (fun i _ => map_clean_roundNames_B d D S i hd hS1)

theorem cleanup_rawNames (p d q P D Q S : Nat) (hS : 0 < D → 1 ≤ S) :
    cleanup_states (rawNames p d q P D Q S) = cleanNames p d q P D Q S := by
  rw [cleanup_states_eq_map]
  unfold rawNames cleanNames
  simp only [List.map_append]
  have hA : ([("data").toList]).map cleanupName = [("data").toList] := rfl
  have hB : (((List.range ((d + (if 0 < D then 1 else 0)) - 1)).map (fun i =>
        ("D1^").toList ++ natChars (i + 1) ++ (".data").toList)).map cleanupName)
      = (List.range ((d + (if 0 < D then 1 else 0)) - 1)).map (fun i =>
        'D' :: '1' :: (caretNat (i + 1) ++ dotData)) := by
    rw [List.map_map]
    apply List.map_congr_left
    intro i hi
    simp only [Function.comp_apply]
    exact cleanup_F2 (i + 1) (by omega)
  have hC := map_clean_segment3 d D S hS
  have hD2 : ((if 0 < d + D then [("data_star").toList] else []).map cleanupName)
      = (if 0 < d + D then [("data_star").toList] else []) := by
    by_cases h : 0 < d + D
    · simp only [if_pos h, List.map_cons, List.map_nil]
      rw [show cleanupName (("data_star").toList) = ("data_star").toList from rfl]
    · simp only [if_neg h, List.map_nil]
  have hE : (((List.range (max (p + P * S) (q + Q * S + 1) - 1)).map (fun i =>
        ("state").toList ++ (if 0 < d + D then ("_star").toList else ([] : List Char)) ++
          ("_").toList ++ natChars (i + 1))).map cleanupName)
      = (List.range (max (p + P * S) (q + Q * S + 1) - 1)).map (fun i =>
        ("state").toList ++ (if 0 < d + D then ("_star").toList else ([] : List Char)) ++
          ("_").toList ++ natChars (i + 1)) := by
    rw [List.map_map]
    apply List.map_congr_left
    intro i hi
    simp only [Function.comp_apply]
    by_cases h : 0 < d + D
    · rw [if_pos h]
      exact cleanupName_prefix_digits _ (by decide) (i + 1)
    · rw [if_neg h]
      exact cleanupName_prefix_digits _ (by decide) (i + 1)
  rw [hA, hB, hC, hD2, hE]

theorem caret_dot_inj {k k' : Nat} (hk : 0 < k) (hk' : 0 < k')
    (h : caretNat k ++ dotData = caretNat k' ++ dotData) : k = k' := by
  obtain ⟨a, t, he, hd, hz⟩ := natChars_cons k
  obtain ⟨a', t', he', hd', hz'⟩ := natChars_cons k'
  unfold caretNat at h
  rw [he, he'] at h
  simp only [List.headD_cons, List.tail_cons] at h
  by_cases h1 : a = '1' <;> by_cases h1' : a' = '1'
  · rw [if_pos h1, if_pos h1'] at h
    have ht : t = t' := List.append_cancel_right h
    apply natChars_injective
    rw [he, he', h1, h1', ht]
  · rw [if_pos h1, if_neg h1'] at h
    exfalso
    cases t with
    | nil =>
      rw [List.nil_append] at h
      have : '.' = '^' := by
        have := congrArg (fun l : List Char => l.headD ' ') h
        simpa [dotData] using this
      exact absurd this (by decide)
    | cons c t2 =>
      have hc : c = '^' := by
        have := congrArg (fun l : List Char => l.headD ' ') h
        simpa using this
      have : c.isDigit = true := natChars_digits c (by rw [he]; simp)
      rw [hc] at this
      exact absurd this (by decide)
  · rw [if_neg h1, if_pos h1'] at h
    exfalso
    cases t' with
    | nil =>
      rw [List.nil_append] at h
      have : '^' = '.' := by
        have := congrArg (fun l : List Char => l.headD ' ') h
        simpa [dotData] using this
      exact absurd this (by decide)
    | cons c t2 =>
      have hc : '^' = c := by
        have := congrArg (fun l : List Char => l.headD ' ') h
        simpa using this
      have : c.isDigit = true := natChars_digits c (by rw [he']; simp)
      rw [← hc] at this
      exact absurd this (by decide)
  · rw [if_neg h1, if_neg h1'] at h
    simp only [List.cons_append, List.cons.injEq] at h
    have ha := h.2.1
    have ht := List.append_cancel_right h.2.2
    apply natChars_injective
    rw [he, he', ha, ht]

theorem cleanCurr_dot_inj (d S : Nat) {i i' : Nat}
    (h : cleanCurr d S i ++ dotData = cleanCurr d S i' ++ dotData) : i = i' := by
  unfold cleanCurr at h
  by_cases hd : d = 0
  · rw [if_pos hd, if_pos hd] at h
    rcases Nat.eq_zero_or_pos i with rfl | hi <;> rcases Nat.eq_zero_or_pos i' with rfl | hi'
    · rfl
    · rw [if_pos rfl, if_neg (by omega)] at h
      exfalso
      have := congrArg (fun l : List Char => l.headD ' ') h
      simpa [dotData] using this
    · rw [if_neg (by omega), if_pos rfl] at h
      exfalso
      have := congrArg (fun l : List Char => l.headD ' ') h
      simpa [dotData] using this
    · rw [if_neg (by omega), if_neg (by omega)] at h
      simp only [List.cons_append, List.cons.injEq, List.append_assoc] at h
      have h2 := List.append_cancel_left h.2
      exact caret_dot_inj hi hi' h2
  · rw [if_neg hd, if_neg hd] at h
    rcases Nat.eq_zero_or_pos i with rfl | hi <;> rcases Nat.eq_zero_or_pos i' with rfl | hi'
    · rfl
    · rw [if_pos rfl, if_neg (by omega)] at h
      exfalso
      simp only [List.cons_append, List.cons.injEq, List.append_assoc] at h
      have h2 := List.append_cancel_left h.2.2
      have := congrArg (fun l : List Char => l.headD ' ') h2
      simpa [dotData] using this
    · rw [if_neg (by omega), if_pos rfl] at h
      exfalso
      simp only [List.cons_append, List.cons.injEq, List.append_assoc] at h
      have h2 := List.append_cancel_left h.2.2
      have := congrArg (fun l : List Char => l.headD ' ') h2
      simpa [dotData] using this
    · rw [if_neg (by omega), if_neg (by omega)] at h
      simp only [List.cons_append, List.cons.injEq, List.append_assoc] at h
      have h2 := List.append_cancel_left h.2.2
      simp only [List.cons_append, List.cons.injEq] at h2
      have h3 := List.append_cancel_left h2.2
      exact caret_dot_inj hi hi' h3

theorem digits_append_inj : ∀ (u u' x x' : List Char),
    (∀ c ∈ u, c.isDigit = true) → (∀ c ∈ u', c.isDigit = true) →
    ((x.headD 'D').isDigit = false) → ((x'.headD 'D').isDigit = false) →
    u ++ x = u' ++ x' → u = u' ∧ x = x' := by
  intro u
  induction u with
  | nil =>
    intro u' x x' _ hu' hx hx' h
    cases u' with
    | nil => exact ⟨rfl, h⟩
    | cons c t =>
      exfalso
      rw [List.nil_append] at h
      have : x.headD 'D' = c := by rw [h]; rfl
      rw [this] at hx
      rw [hu' c (by simp)] at hx
      cases hx
  | cons c t ih =>
    intro u' x x' hu hu' hx hx' h
    cases u' with
    | nil =>
      exfalso
      rw [List.nil_append] at h
      have : x'.headD 'D' = c := by rw [← h]; rfl
      rw [this] at hx'
      rw [hu c (by simp)] at hx'
      cases hx'
    | cons c' t' =>
      simp only [List.cons_append, List.cons.injEq] at h
      obtain ⟨rfl, h2⟩ := h
      obtain ⟨h3, h4⟩ := ih t' x x' (fun a ha => hu a (by simp [ha]))
        (fun a ha => hu' a (by simp [ha])) hx hx' h2
      exact ⟨by rw [h3], h4⟩

theorem cleanCurr_dot_head (d S i : Nat) :
    (((cleanCurr d S i ++ dotData).headD 'D').isDigit) = false := by
  unfold cleanCurr
  split_ifs <;> rfl

theorem cleanCurr_pos_head (d S r : Nat) (hr : 0 < r) :
    ∃ X, cleanCurr d S r = 'D' :: X := by
  unfold cleanCurr
  split_ifs with h1 h2 h3
  · omega
  · exact ⟨_, rfl⟩
  · omega
  · exact ⟨_, rfl⟩

theorem mem_cleanRound {d D S i : Nat} {x : List Char} (h : x ∈ cleanRound d D S i) :
    (∃ j, j < S - 1 ∧ x = 'L' :: (natChars (j + 1) ++ (cleanCurr d S i ++ dotData))) ∨
    (i ≠ D - 1 ∧ x = cleanCurr d S (i + 1) ++ dotData) := by
  unfold cleanRound at h
  rcases List.mem_append.mp h with h | h
  · left
    simp only [List.mem_map, List.mem_range] at h
    obtain ⟨j, hj, he⟩ := h
    exact ⟨j, hj, he.symm⟩
  · right
    by_cases hD : i ≠ D - 1
    · rw [if_pos hD] at h
      simp only [List.mem_singleton] at h
      exact ⟨hD, h⟩
    · rw [if_neg hD] at h
      exact absurd h (List.not_mem_nil x)

theorem Lname_ne_inter {d S i j r : Nat} (hr : 0 < r) :
    'L' :: (natChars (j + 1) ++ (cleanCurr d S i ++ dotData))
      ≠ cleanCurr d S r ++ dotData := by
  obtain ⟨X, hX⟩ := cleanCurr_pos_head d S r hr
  rw [hX]
  intro h
  have := congrArg (fun l : List Char => l.headD ' ') h
  simp at this

theorem cleanRound_nodup (d D S i : Nat) : (cleanRound d D S i).Nodup := by
  unfold cleanRound
  rw [List.nodup_append]
  refine ⟨?_, ?_, ?_⟩
  · apply List.Nodup.map_on ?_ (List.nodup_range _)
    intro x hx y hy h
    simp only [List.cons.injEq, true_and] at h
    have := List.append_cancel_right h
    have := natChars_injective this
    omega
  · by_cases hD : i ≠ D - 1
    · rw [if_pos hD]; exact List.nodup_singleton _
    · rw [if_neg hD]; exact List.nodup_nil
  · intro x hx hx'
    simp only [List.mem_map, List.mem_range] at hx
    obtain ⟨j, hj, he⟩ := hx
    by_cases hD : i ≠ D - 1
    · rw [if_pos hD] at hx'
      simp only [List.mem_singleton] at hx'
      rw [← he] at hx'
      exact Lname_ne_inter (by omega) hx'
    · rw [if_neg hD] at hx'
      exact absurd hx' (List.not_mem_nil x)

theorem cleanRound_disjoint (d D S : Nat) {i i' : Nat} (hne : i ≠ i') :
    (cleanRound d D S i).Disjoint (cleanRound d D S i') := by
  intro x hx hx'
  rcases mem_cleanRound hx with ⟨j, hj, rfl⟩ | ⟨hiD, rfl⟩ <;>
    rcases mem_cleanRound hx' with ⟨j', hj', he'⟩ | ⟨hiD', he'⟩
  · simp only [List.cons.injEq, true_and] at he'
    obtain ⟨-, h2⟩ := digits_append_inj _ _ _ _ natChars_digits natChars_digits
      (cleanCurr_dot_head d S i) (cleanCurr_dot_head d S i') he'
    exact hne (cleanCurr_dot_inj d S h2)
  · exact Lname_ne_inter (by omega) he'
  · exact Lname_ne_inter (by omega) he'.symm
  · have := cleanCurr_dot_inj d S he'
    omega

theorem nodup_flatMap_of {l : List Nat} {f : Nat → List (List Char)}
    (hl : l.Nodup)
    (h1 : ∀ i ∈ l, (f i).Nodup)
    (h2 : ∀ i ∈ l, ∀ j ∈ l, i ≠ j → (f i).Disjoint (f j)) :
    (l.flatMap f).Nodup := by
  induction l with
  | nil => simp
  | cons x xs ih =>
    rw [List.flatMap_cons, List.nodup_append]
    refine ⟨h1 x (by simp),
      ih (List.Nodup.of_cons hl) (fun i hi => h1 i (by simp [hi]))
        (fun i hi j hj hij => h2 i (by simp [hi]) j (by simp [hj]) hij), ?_⟩
    intro a ha ha'
    simp only [List.mem_flatMap] at ha'
    obtain ⟨j, hj, haj⟩ := ha'
    have hxj : x ≠ j := by
      rintro rfl
      exact (List.nodup_cons.mp hl).1 hj
    exact h2 x (by simp) j (by simp [hj]) hxj ha haj

theorem countD_natChars (k : Nat) : List.count 'D' (natChars k) = 0 :=
  List.count_eq_zero.mpr (fun h => natChars_ne (by decide) 'D' h rfl)

theorem countD_caretNat (k : Nat) : List.count 'D' (caretNat k) = 0 :=
  List.count_eq_zero.mpr (fun h => caretNat_ne (by decide) (by decide) 'D' h rfl)

theorem countD_dot : List.count 'D' dotData = 0 := by decide

theorem B_ne_inter {d S k r : Nat} (hd : 0 < d) (hr : 0 < r) :
    'D' :: '1' :: (caretNat k ++ dotData) ≠ cleanCurr d S r ++ dotData := by
  intro h
  have hc := congrArg (List.count 'D') h
  rw [show cleanCurr d S r = 'D' :: '1' :: (caretNat d ++ 'D' ::
      (natChars S ++ caretNat r)) from by
    unfold cleanCurr
    rw [if_neg (by omega), if_neg (by omega)]] at hc
  simp only [List.cons_append, List.count_cons, List.count_append,
    countD_natChars, countD_caretNat, countD_dot] at hc
  simp at hc

theorem cleanNames_nodup (p d q P D Q S : Nat) (hS : 0 < D → 1 ≤ S) :
    (cleanNames p d q P D Q S).Nodup := by
  unfold cleanNames
  have hBshape : ∀ x ∈ (List.range ((d + (if 0 < D then 1 else 0)) - 1)).map
      (fun i => 'D' :: '1' :: (caretNat (i + 1) ++ dotData)),
      ∃ k, 0 < k ∧ k ≤ (d + (if 0 < D then 1 else 0)) - 1 ∧
        x = 'D' :: '1' :: (caretNat k ++ dotData) := by
    intro x hx
    simp only [List.mem_map, List.mem_range] at hx
    obtain ⟨i, hi, he⟩ := hx
    exact ⟨i + 1, by omega, by omega, he.symm⟩
  have hCshape : ∀ x ∈ (List.range D).flatMap (cleanRound d D S),
      (∃ u, x = 'L' :: u) ∨ (∃ r, 0 < r ∧ x = cleanCurr d S r ++ dotData) := by
    intro x hx
    simp only [List.mem_flatMap, List.mem_range] at hx
    obtain ⟨i, hi, hxi⟩ := hx
    rcases mem_cleanRound hxi with ⟨j, hj, he⟩ | ⟨hD1, he⟩
    · exact Or.inl ⟨_, he⟩
    · exact Or.inr ⟨i + 1, by omega, he⟩
  have hCD : ∀ x ∈ (List.range D).flatMap (cleanRound d D S), 0 < D := by
    intro x hx
    simp only [List.mem_flatMap, List.mem_range] at hx
    obtain ⟨i, hi, -⟩ := hx
    omega
  have hEshape : ∀ x ∈ (List.range (max (p + P * S) (q + Q * S + 1) - 1)).map (fun i =>
      ("state").toList ++ (if 0 < d + D then ("_star").toList else ([] : List Char)) ++
        ("_").toList ++ natChars (i + 1)), ∃ u, x = 's' :: u := by
    intro x hx
    simp only [List.mem_map, List.mem_range] at hx
    obtain ⟨i, hi, he⟩ := hx
    exact ⟨_, he.symm⟩
  refine List.Nodup.append (List.Nodup.append (List.Nodup.append
    (List.Nodup.append ?n1 ?n2 ?d12) ?n3 ?d13) ?n4 ?d14) ?n5 ?d15
  case n1 => exact List.nodup_singleton _
  case n2 =>
    apply List.Nodup.map_on ?_ (List.nodup_range _)
    intro x hx y hy h
    simp only [List.cons.injEq, true_and] at h
    have := caret_dot_inj (by omega) (by omega) h
    omega
  case d12 =>
    intro x hx hx'
    simp only [List.mem_singleton] at hx
    obtain ⟨k, -, -, he⟩ := hBshape x hx'
    rw [hx] at he
    exact absurd (show 'd' = 'D' by injection he) (by decide)
  case n3 =>
    exact nodup_flatMap_of (List.nodup_range D)
      (fun i _ => cleanRound_nodup d D S i)
      (fun i _ j _ hij => cleanRound_disjoint d D S hij)
  case d13 =>
    intro x hx hx'
    rcases List.mem_append.mp hx with hx1 | hx2
    · simp only [List.mem_singleton] at hx1
      rcases hCshape x hx' with ⟨u, he⟩ | ⟨r, hr, he⟩
      · rw [hx1] at he
        exact absurd (show 'd' = 'L' by injection he) (by decide)
      · obtain ⟨X, hX⟩ := cleanCurr_pos_head d S r hr
        rw [hx1, hX, List.cons_append] at he
        exact absurd (show 'd' = 'D' by injection he) (by decide)
    · obtain ⟨k, hk, hkb, he⟩ := hBshape x hx2
      have hD : 0 < D := hCD x hx'
      have hd : 0 < d := by
        rw [if_pos hD] at hkb
        omega
      rcases hCshape x hx' with ⟨u, he'⟩ | ⟨r, hr, he'⟩
      · rw [he] at he'
        exact absurd (show 'D' = 'L' by injection he') (by decide)
      · rw [he] at he'
        exact B_ne_inter hd hr he'
  case n4 =>
    by_cases h : 0 < d + D
    · rw [if_pos h]; exact List.nodup_singleton _
    · rw [if_neg h]; exact List.nodup_nil
  case d14 =>
    intro x hx hx'
    by_cases h : 0 < d + D
    · rw [if_pos h] at hx'
      simp only [List.mem_singleton] at hx'
      rcases List.mem_append.mp hx with hx1 | hx2
      · rcases List.mem_append.mp hx1 with hx3 | hx4
        · simp only [List.mem_singleton] at hx3
          rw [hx'] at hx3
          exact absurd hx3 (by decide)
        · obtain ⟨k, -, -, he⟩ := hBshape x hx4
          rw [hx'] at he
          exact absurd (show 'd' = 'D' by injection he) (by decide)
      · rcases hCshape x hx2 with ⟨u, he⟩ | ⟨r, hr, he⟩
        · rw [hx'] at he
          exact absurd (show 'd' = 'L' by injection he) (by decide)
        · obtain ⟨X, hX⟩ := cleanCurr_pos_head d S r hr
          rw [hx', hX, List.cons_append] at he
          exact absurd (show 'd' = 'D' by injection he) (by decide)
    · rw [if_neg h] at hx'
      exact absurd hx' (List.not_mem_nil x)
  case n5 =>
    apply List.Nodup.map_on ?_ (List.nodup_range _)
    intro x hx y hy h
    have h2 := List.append_cancel_left h
    have := natChars_injective h2
    omega
  case d15 =>
    intro x hx hx'
    obtain ⟨u, hu⟩ := hEshape x hx'
    rcases List.mem_append.mp hx with hx1 | hx2
    · rcases List.mem_append.mp hx1 with hx3 | hx4
      · rcases List.mem_append.mp hx3 with hx5 | hx6
        · simp only [List.mem_singleton] at hx5
          rw [hu] at hx5
          exact absurd (show 's' = 'd' by injection hx5) (by decide)
        · obtain ⟨k, -, -, he⟩ := hBshape x hx6
          rw [hu] at he
          exact absurd (show 's' = 'D' by injection he) (by decide)
      · rcases hCshape x hx4 with ⟨v, he⟩ | ⟨r, hr, he⟩
        · rw [hu] at he
          exact absurd (show 's' = 'L' by injection he) (by decide)
        · obtain ⟨X, hX⟩ := cleanCurr_pos_head d S r hr
          rw [hu, hX, List.cons_append] at he
          exact absurd (show 's' = 'D' by injection he) (by decide)
    · by_cases h : 0 < d + D
      · rw [if_pos h] at hx2
        simp only [List.mem_singleton] at hx2
        rw [hu] at hx2
        exact absurd (show 's' = 'd' by injection hx2) (by decide)
      · rw [if_neg h] at hx2
        exact absurd hx2 (List.not_mem_nil x)

/-- C10: for every valid order, the state names returned by
`make_harvey_state_names` are pairwise distinct, even after `cleanup_states` has
stripped the `^1`, `^0`, `L0` and `D0` tokens. -/
theorem C10_theorem (p d q P D Q S : Nat) (hS : 0 < D → 1 ≤ S) :
    (make_harvey_state_names p d q P D Q S).Nodup := by
  rw [make_harvey_eq_raw, cleanup_rawNames p d q P D Q S hS]
  exact cleanNames_nodup p d q P D Q S hS

/-- C10 witness: the theorem applied at the concrete valid order
`(1, 1, 1, 0, 1, 0, 4)`. -/
theorem C10_witness :
    ((0:Nat) < 1 → (1:Nat) ≤ 4) ∧ (make_harvey_state_names 1 1 1 0 1 0 4).Nodup :=
  ⟨by decide, C10_theorem 1 1 1 0 1 0 4 (by decide)⟩
